import Mathlib

/-!
# Verification of the git-chai change-classification core

A shallow embedding of the git-chai source (`src/types.rs`, `src/git/status.rs`,
`src/git/grouping.rs`, `src/git/commit.rs`, `src/git/operations.rs`, `src/main.rs`)
together with proofs about the embedded definitions.

Modelling conventions:
* Rust `PathBuf`/`&str` paths are Lean `String`s; git reports repo-relative,
  forward-slash separated paths, and the path functions below model the Rust
  `std::path` operations on such paths.
* The external `git ls-files` directory-listing capability
  (`get_all_files_in_directory`) is a parameter
  `lister : String → Except String (List String)`; `.error` models a failed
  command, `.ok` the listed tracked files.
* The mutating git calls of the orchestrator (`git add`, `git commit`,
  `git push`) are modelled as a trace of `GitAction`s together with a
  success oracle `ops : GitAction → Bool`.
* Rust byte-slice panics in status-line parsing are modelled as `none`
  (see `normalizeLine`).
* String operations are implemented by structural recursion over the
  character list `String.data` so that all definitions evaluate.
-/

/-- The GitStatus enum from `src/types.rs` lines 4–18: the recognized two-character
git porcelain codes plus a catch-all `unknown` preserving the raw code. -/
inductive GitStatus where
  | addedStaged
  | modifiedStaged
  | deletedStaged
  | addedUnstaged
  | modifiedUnstaged
  | deletedUnstaged
  | untracked
  | renamed
  | copied
  | unmerged
  | ignored
  | unknown (code : String)
deriving DecidableEq, Repr, BEq

/-- Model of `impl FromStr for GitStatus` (`src/types.rs` lines 20–39).  The Rust
`from_str` returns `Ok` in every branch (the catch-all yields
`Ok(Unknown(s))`), so the model is a total function. -/
def GitStatus.fromStr (s : String) : GitStatus :=
  if s = "A " then .addedStaged
  else if s = "M " then .modifiedStaged
  else if s = "D " then .deletedStaged
  else if s = " A" then .addedUnstaged
  else if s = " M" then .modifiedUnstaged
  else if s = " D" then .deletedUnstaged
  else if s = "??" then .untracked
  else if s = "R " then .renamed
  else if s = "C " then .copied
  else if s = "U " then .unmerged
  else if s = "! " then .ignored
  else .unknown s

/-- The ChangeType enum from `src/types.rs` lines 60–67. -/
inductive ChangeType where
  | add
  | modify
  | delete
  | rename
  | copy
deriving DecidableEq, Repr, BEq

/-- Model of `impl From<GitStatus> for ChangeType` (`src/types.rs` lines 69–82). -/
def ChangeType.ofStatus : GitStatus → ChangeType
  | .addedStaged | .addedUnstaged | .untracked => .add
  | .modifiedStaged | .modifiedUnstaged => .modify
  | .deletedStaged | .deletedUnstaged => .delete
  | .renamed => .rename
  | .copied => .copy
  | .unmerged | .ignored | .unknown _ => .modify

/-- Model of `impl fmt::Display for ChangeType` (`src/types.rs` lines 84–94). -/
def ChangeType.toString : ChangeType → String
  | .add => "add"
  | .modify => "mod"
  | .delete => "del"
  | .rename => "rename"
  | .copy => "copy"

/-- The GitChange record from `src/git/status.rs` lines 8–13. -/
structure GitChange where
  status : GitStatus
  change_type : ChangeType
  filename : String
deriving DecidableEq, Repr

/-- The ChangeGroup record from `src/git/grouping.rs` lines 7–13 (the CommitUnit of the
spec): `path` is the directory (or the `"."` sentinel), `change_type` the
kind tag, `file_change_types` the optional per-file kinds. -/
structure ChangeGroup where
  path : String
  change_type : String
  files : List String
  file_change_types : Option (List String)
deriving DecidableEq, Repr

/-! ## Status-line normalization (`src/git/status.rs` lines 38–62)

Rust slices `&line[0..2]` and `&line[3..]` by BYTE index and `line.len()` is
the byte length; a slice whose endpoint is not a UTF-8 character boundary
panics.  The model works on the character list of the line and re-derives
byte offsets from `Char.utf8Size`. -/

/-- Byte length of a character list, as Rust `str::len` counts it. -/
def byteLength (cs : List Char) : Nat :=
  (cs.map Char.utf8Size).sum

/-- Split a character list at byte offset `n`, as Rust slicing does:
`none` when `n` is not a character boundary (the Rust slice would panic). -/
def splitAtByte : List Char → Nat → Option (List Char × List Char)
  | cs, 0 => some ([], cs)
  | [], _ + 1 => none
  | c :: rest, n + 1 =>
    if c.utf8Size ≤ n + 1 then
      match splitAtByte rest (n + 1 - c.utf8Size) with
      | some (a, b) => some (c :: a, b)
      | none => none
    else
      none

/-- Model of Rust `str::trim` on a character list. -/
def trimChars (cs : List Char) : List Char :=
  ((cs.dropWhile Char.isWhitespace).reverse.dropWhile Char.isWhitespace).reverse

/-- The per-line body of the `for line in status_output.lines()` loop of
`get_changed_files` (`src/git/status.rs` lines 38–62).
Result: `none` models a Rust panic (byte slice off a character boundary);
`some none` models `continue` (line skipped); `some (some c)` models pushing
the parsed `GitChange`.  The `map_err(..)?` on `GitStatus::from_str` never
fires because `from_str` is infallible. -/
def normalizeLine (line : List Char) : Option (Option GitChange) :=
  if byteLength line < 3 then
    some none
  else
    match splitAtByte line 2 with
    | none => none
    | some (statusChars, _) =>
      match splitAtByte line 3 with
      | none => none
      | some (_, afterCode) =>
        let filename := trimChars afterCode
        if filename.isEmpty then
          some none
        else
          let status := GitStatus.fromStr (String.mk statusChars)
          some (some ⟨status, ChangeType.ofStatus status, String.mk filename⟩)

/-! ## Path operations

Models of the `std::path` operations used by the grouping engine and the
commit-message builder, for repo-relative forward-slash paths. -/

/-- Model of Rust `str::ends_with(char)`. -/
def endsWithChar (s : String) (c : Char) : Bool :=
  s.data.getLast? == some c

/-- Split a character list on `'/'` (components of a forward-slash path). -/
def splitPath : List Char → List (List Char)
  | [] => [[]]
  | c :: rest =>
    if c = '/' then
      [] :: splitPath rest
    else
      match splitPath rest with
      | [] => [[c]]
      | seg :: segs => (c :: seg) :: segs

/-- Join path components with `'/'`. -/
def joinPath : List (List Char) → List Char
  | [] => []
  | [seg] => seg
  | seg :: rest => seg ++ '/' :: joinPath rest

/-- The normal components of a path: empty segments and `"."` segments are
dropped, as Rust `Path::components` normalizes them away. -/
def pathComponents (p : String) : List (List Char) :=
  (splitPath p.data).filter (fun seg => !(seg.isEmpty || seg == ['.']))

/-- The parent-directory computation of `group_changes_by_directory`
(`src/git/grouping.rs` lines 66–74): Rust `Path::parent` (drop the final
component) with the empty/absent parent normalized to the `"."` sentinel. -/
def parentDir (filename : String) : String :=
  match (pathComponents filename).dropLast with
  | [] => "."
  | front => String.mk (joinPath front)

/-- Model of Rust `Path::file_name`: the final normal component of the path,
`none` when there is none (`"."`, `"/"`, empty, or a path ending in `".."`). -/
def fileName (p : String) : Option String :=
  match (pathComponents p).getLast? with
  | none => none
  | some last => if last == ['.', '.'] then none else some (String.mk last)

/-- The commit-message computation of `create_commit_for_directory`
(`src/git/commit.rs` lines 32–37): `directory.file_name()` with fallback
`directory.to_str().unwrap_or("directory")`.  In the model every path is
valid UTF-8, so `to_str` always succeeds and the `"directory"` literal is
unreachable; the fallback is the path's own string form. -/
def commitMessageForDirectory (directory : String) (change_type : String) : String :=
  let dir_name :=
    match fileName directory with
    | some n => n
    | none => directory
  change_type ++ ": " ++ dir_name

/-- The commit-message computation of `create_commit_for_file`
(`src/git/commit.rs` line 7). -/
def commitMessageForFile (filename : String) (change_type : String) : String :=
  change_type ++ ": " ++ filename

/-! ## Grouping engine (`src/git/grouping.rs` lines 48–137) -/

/-- One entry of the `directory_groups: HashMap<PathBuf, (String, Vec<String>)>`
of `group_changes_by_directory`: (directory, change-type tag, changed files).
The map is modelled as an association list in first-insertion order; the Rust
`HashMap` iteration order is unspecified, and the properties proved below are
insensitive to the bucket order. -/
abbrev Bucket := String × String × List String

/-- The untracked-directory test of `group_changes_by_directory` line 56:
`change.filename.ends_with('/') && change.status == GitStatus::Untracked`. -/
def isUntrackedDir (c : GitChange) : Bool :=
  endsWithChar c.filename '/' && c.status == GitStatus.untracked

/-- The `ChangeGroup` pushed for an untracked directory
(`src/git/grouping.rs` lines 57–62). -/
def untrackedGroup (c : GitChange) : ChangeGroup :=
  { path := c.filename
    change_type := "add"
    files := [c.filename]
    file_change_types := some ["add"] }

/-- The `directory_groups.entry(..).and_modify(..).or_insert_with(..)` step
(`src/git/grouping.rs` lines 78–86): existing bucket for the directory gets
the file appended and its tag downgraded to `"mixed"` on a kind mismatch;
a missing bucket is created with the record's kind and file. -/
def insertBucket : List Bucket → String → String → String → List Bucket
  | [], dir, kind, file => [(dir, kind, [file])]
  | (d, k, fs) :: rest, dir, kind, file =>
    if d = dir then
      (d, if k = kind then k else "mixed", fs ++ [file]) :: rest
    else
      (d, k, fs) :: insertBucket rest dir kind file

/-- One iteration of the first pass of `group_changes_by_directory`
(lines 52–87): short-circuit untracked directories, bucket everything else
by parent directory. -/
def collectStep (acc : List ChangeGroup × List Bucket) (c : GitChange) :
    List ChangeGroup × List Bucket :=
  if isUntrackedDir c then
    (acc.1 ++ [untrackedGroup c], acc.2)
  else
    (acc.1, insertBucket acc.2 (parentDir c.filename) c.change_type.toString c.filename)

/-- The whole first pass of `group_changes_by_directory`: the untracked
directory groups (in input order) and the directory buckets. -/
def collectGroups (changes : List GitChange) : List ChangeGroup × List Bucket :=
  changes.foldl collectStep ([], [])

/-- The individual-files fallback of `group_changes_by_directory`
(lines 117–133): re-walk the original record list, keep the records whose
filename is among the bucket's changed files, and emit one `"individual"`
group with the `"."` sentinel path and parallel per-file kinds. -/
def individualGroup (changes : List GitChange) (changedFiles : List String) : ChangeGroup :=
  let selected := changes.filter (fun c => changedFiles.contains c.filename)
  { path := "."
    change_type := "individual"
    files := selected.map (fun c => c.filename)
    file_change_types := some (selected.map (fun c => c.change_type.toString)) }

/-- The second pass of `group_changes_by_directory` for one bucket
(lines 94–133): a non-`"mixed"` bucket whose directory listing succeeds with
exactly as many tracked files as changed files becomes a full-directory
group; every other outcome (mixed tag, listing failure, count mismatch)
falls through to the individual-files group. -/
def emitBucket (lister : String → Except String (List String))
    (changes : List GitChange) : Bucket → ChangeGroup
  | (path, change_type, changedFiles) =>
    if change_type ≠ "mixed" then
      match lister path with
      | .ok allFiles =>
        if changedFiles.length = allFiles.length then
          { path := path
            change_type := change_type
            files := changedFiles
            file_change_types := none }
        else
          individualGroup changes changedFiles
      | .error _ => individualGroup changes changedFiles
    else
      individualGroup changes changedFiles

/-- Model of `group_changes_by_directory` (`src/git/grouping.rs` lines 48–137).
The Rust body never propagates an error (listing failures are caught at
lines 110–114), so the function always returns `.ok`: the untracked
directory groups first, then one group per bucket. -/
def group_changes_by_directory (lister : String → Except String (List String))
    (changes : List GitChange) : Except String (List ChangeGroup) :=
  let (untracked, buckets) := collectGroups changes
  .ok (untracked ++ buckets.map (emitBucket lister changes))

/-- Total number of files across a list of groups (the quantity of the
spec's file-count invariant). -/
def totalFileCount (gs : List ChangeGroup) : Nat :=
  (gs.map (fun g => g.files.length)).sum

/-! ## Commit orchestrator (`src/main.rs` `process_changes`, lines 77–218) -/

/-- A mutating git call made by the orchestrator. -/
inductive GitAction where
  | stageDirectory (path : String)
  | commitDirectory (path : String) (change_type : String)
  | stageFile (filename : String)
  | commitFile (filename : String) (change_type : String)
  | push
deriving DecidableEq, Repr

/-- The per-file change-type resolution of `process_changes`
(`src/main.rs` lines 154–166): `perFileKinds[i]` when present and in range;
when present but out of range, `"add"` for a path ending in `"/"`, else
`"mod"`; when absent, `"mod"` unconditionally. -/
def resolveFileKind (g : ChangeGroup) (i : Nat) (file : String) : String :=
  match g.file_change_types with
  | some change_types =>
    if h : i < change_types.length then
      change_types.get ⟨i, h⟩
    else if endsWithChar file '/' then
      "add"
    else
      "mod"
  | none => "mod"

/-- The actions attempted for one file of an individual/mixed group
(`src/main.rs` lines 151–200): the stage is always attempted; the commit is
attempted only when the stage succeeded (`continue` on stage failure); a
commit failure just moves on to the next file. -/
def processFile (ops : GitAction → Bool) (g : ChangeGroup) (i : Nat) (file : String) :
    List GitAction :=
  GitAction.stageFile file ::
    (if ops (GitAction.stageFile file) then
      [GitAction.commitFile file (resolveFileKind g i file)]
    else
      [])

/-- The actions attempted for one group (`src/main.rs` lines 100–202):
a uniform-directory group stages the directory and, if that succeeded,
commits it; an individual/mixed group walks its files with `processFile`.
Failures never abort the walk (`continue`). -/
def processUnit (ops : GitAction → Bool) (g : ChangeGroup) : List GitAction :=
  if g.change_type ≠ "individual" ∧ g.change_type ≠ "mixed" then
    GitAction.stageDirectory g.path ::
      (if ops (GitAction.stageDirectory g.path) then
        [GitAction.commitDirectory g.path g.change_type]
      else
        [])
  else
    (g.files.enum).flatMap (fun p => processFile ops g p.1 p.2)

/-- The trace of mutating git calls of `process_changes`
(`src/main.rs` lines 77–218): every group is skipped in dry-run mode
(lines 78–98), and the single push happens only when `push && !dry_run`
(lines 207–218).  The Rust function returns `Ok(())` unconditionally after
the loop. -/
def processGroups (ops : GitAction → Bool) (dryRun pushFlag : Bool)
    (groups : List ChangeGroup) : List GitAction :=
  (groups.flatMap (fun g => if dryRun then [] else processUnit ops g)) ++
    (if pushFlag && !dryRun then [GitAction.push] else [])

/-! ## Theorems: status normalization -/

/-- C4: every recognized two-character status code normalizes to exactly the
mapped ChangeKind (staged/unstaged Add and Untracked to Add, staged/unstaged
Modify to Modify, staged/unstaged Delete to Delete, Renamed to Rename,
Copied to Copy, Unmerged and Ignored to Modify), and every code outside the
recognized set parses to `unknown` (no failure) and normalizes to Modify. -/
theorem normalize_status_mapping :
    (ChangeType.ofStatus (GitStatus.fromStr "A ") = .add ∧
     ChangeType.ofStatus (GitStatus.fromStr " A") = .add ∧
     ChangeType.ofStatus (GitStatus.fromStr "??") = .add ∧
     ChangeType.ofStatus (GitStatus.fromStr "M ") = .modify ∧
     ChangeType.ofStatus (GitStatus.fromStr " M") = .modify ∧
     ChangeType.ofStatus (GitStatus.fromStr "D ") = .delete ∧
     ChangeType.ofStatus (GitStatus.fromStr " D") = .delete ∧
     ChangeType.ofStatus (GitStatus.fromStr "R ") = .rename ∧
     ChangeType.ofStatus (GitStatus.fromStr "C ") = .copy ∧
     ChangeType.ofStatus (GitStatus.fromStr "U ") = .modify ∧
     ChangeType.ofStatus (GitStatus.fromStr "! ") = .modify) ∧
    ∀ s : String,
      s ∉ (["A ", "M ", "D ", " A", " M", " D", "??", "R ", "C ", "U ", "! "] :
        List String) →
      GitStatus.fromStr s = .unknown s ∧
        ChangeType.ofStatus (GitStatus.fromStr s) = .modify := by
  constructor
  · decide
  · intro s hs
    simp only [List.mem_cons, List.not_mem_nil, or_false, not_or] at hs
    obtain ⟨h1, h2, h3, h4, h5, h6, h7, h8, h9, h10, h11⟩ := hs
    constructor
    · simp [GitStatus.fromStr, h1, h2, h3, h4, h5, h6, h7, h8, h9, h10, h11]
    · simp [GitStatus.fromStr, h1, h2, h3, h4, h5, h6, h7, h8, h9, h10, h11,
        ChangeType.ofStatus]

/-- Witness for C4 at the unrecognized code `"X "`. -/
theorem normalize_status_mapping_witness :
    GitStatus.fromStr "X " = .unknown "X " ∧
      ChangeType.ofStatus (GitStatus.fromStr "X ") = .modify :=
  normalize_status_mapping.2 "X " (by decide)

/-- Counterexample for C8: the status-line normalization is not total over
arbitrary input lines — on a line whose byte offset 2 is not a UTF-8
character boundary, the Rust byte slice `&line[0..2]` panics (modelled as
`none`), even though the line is at least 3 bytes long. -/
theorem status_line_totality_cx :
    byteLength ['a', 'é', ' ', 'x'] = 5 ∧
      normalizeLine ['a', 'é', ' ', 'x'] = none := by
  constructor
  · decide
  · decide

/-- C8 (amended): on every line whose byte offsets 2 and 3 fall on UTF-8
character boundaries (in particular every ASCII line), normalization is
total: it either skips the line or yields a change record, and never fails;
a line shorter than 3 bytes is always skipped. -/
theorem status_line_totality (line : List Char)
    (h2 : (splitAtByte line 2).isSome = true)
    (h3 : (splitAtByte line 3).isSome = true) :
    (normalizeLine line = some none ∨
      ∃ c, normalizeLine line = some (some c)) ∧
    (byteLength line < 3 → normalizeLine line = some none) := by
  constructor
  · unfold normalizeLine
    by_cases hlen : byteLength line < 3
    · left
      simp [hlen]
    · rw [if_neg hlen]
      obtain ⟨⟨sc, rest2⟩, hx2⟩ := Option.isSome_iff_exists.mp h2
      obtain ⟨⟨pre3, rest3⟩, hx3⟩ := Option.isSome_iff_exists.mp h3
      rw [hx2, hx3]
      by_cases hemp : (trimChars rest3).isEmpty
      · left
        simp [hemp]
      · right
        refine ⟨⟨GitStatus.fromStr (String.mk sc),
          ChangeType.ofStatus (GitStatus.fromStr (String.mk sc)),
          String.mk (trimChars rest3)⟩, ?_⟩
        simp [hemp]
  · intro hlen
    unfold normalizeLine
    simp [hlen]

/-- Witness for C8 on an ordinary ASCII status line. -/
theorem status_line_totality_witness :
    ((normalizeLine "M  src/a.rs".data = some none ∨
        ∃ c, normalizeLine "M  src/a.rs".data = some (some c)) ∧
      (byteLength "M  src/a.rs".data < 3 →
        normalizeLine "M  src/a.rs".data = some none)) :=
  status_line_totality "M  src/a.rs".data (by decide) (by decide)

/-! ## Theorems: commit messages -/

/-- Counterexample for C10: committing the repository-root unit `"."` uses
the path's own string form, not the literal `"directory"` — the Rust
fallback chain tries `directory.to_str()` before `"directory"`, and that
always succeeds for `"."`. -/
theorem root_commit_message_cx :
    fileName "." = none ∧
      commitMessageForDirectory "." "add" = "add: ." ∧
      "add: ." ≠ "add: directory" := by
  refine ⟨by decide, by decide, by decide⟩

/-- C10 (amended): when the directory path has no file-name component
(for example the repository root `"."`), the commit message uses the path's
own string form as the name — the message is `"{kind}: {path}"`; the literal
`"directory"` would be used only for a non-UTF-8 path, which cannot arise
here. -/
theorem root_commit_message (directory change_type : String)
    (h : fileName directory = none) :
    commitMessageForDirectory directory change_type =
      change_type ++ ": " ++ directory := by
  unfold commitMessageForDirectory
  rw [h]

/-- Witness for C10 at the repository root. -/
theorem root_commit_message_witness :
    commitMessageForDirectory "." "add" = "add" ++ ": " ++ "." :=
  root_commit_message "." "add" (by decide)

/-! ## Theorems: orchestrator -/

/-- C7: in dry-run mode the orchestrator makes zero mutating calls — no
stage, no commit, and no push even when push is requested — for every
input unit list. -/
theorem dry_run_no_mutations (ops : GitAction → Bool) (pushFlag : Bool)
    (groups : List ChangeGroup) :
    processGroups ops true pushFlag groups = [] := by
  simp [processGroups]

/-- Counterexample for C9: for a file of an individual unit whose
`perFileKinds` is absent, the orchestrator resolves the kind to `"mod"`
unconditionally, even when the file path ends in a separator (the claim
says such a path resolves to `"add"`). -/
theorem per_file_kind_fallback_cx :
    endsWithChar "d/" '/' = true ∧
      (ChangeGroup.mk "." "individual" ["d/"] none).file_change_types = none ∧
      resolveFileKind (ChangeGroup.mk "." "individual" ["d/"] none) 0 "d/" = "mod" ∧
      "mod" ≠ "add" := by
  refine ⟨by decide, by decide, by decide, by decide⟩

/-- C9 (amended): processing the file at index `i` of a unit uses
`perFileKinds[i]` when `perFileKinds` is present and `i` is in range; when
`perFileKinds` is present but `i` is out of range it falls back to `"add"`
for a path ending in a separator and `"mod"` otherwise; when `perFileKinds`
is absent it uses `"mod"` unconditionally. -/
theorem per_file_kind_resolution (g : ChangeGroup) (i : Nat) (file : String) :
    (∀ ts, g.file_change_types = some ts →
      (∀ h : i < ts.length, resolveFileKind g i file = ts.get ⟨i, h⟩) ∧
      (ts.length ≤ i → resolveFileKind g i file =
        if endsWithChar file '/' then "add" else "mod")) ∧
    (g.file_change_types = none → resolveFileKind g i file = "mod") := by
  constructor
  · intro ts hts
    constructor
    · intro h
      simp [resolveFileKind, hts, h]
    · intro h
      have h' : ¬ i < ts.length := by omega
      simp [resolveFileKind, hts, h']
  · intro h
    simp [resolveFileKind, h]

/-- Witness for C9 covering the three resolution branches. -/
theorem per_file_kind_resolution_witness :
    resolveFileKind (ChangeGroup.mk "." "individual" ["a"] (some ["del"])) 0 "a" = "del" ∧
      resolveFileKind (ChangeGroup.mk "." "individual" ["a"] (some ["del"])) 5 "d/" =
        (if endsWithChar "d/" '/' then "add" else "mod") ∧
      resolveFileKind (ChangeGroup.mk "." "individual" ["a"] none) 0 "a" = "mod" := by
  refine ⟨?_, ?_, ?_⟩
  · exact ((per_file_kind_resolution (ChangeGroup.mk "." "individual" ["a"] (some ["del"]))
      0 "a").1 ["del"] rfl).1 (by decide)
  · exact ((per_file_kind_resolution (ChangeGroup.mk "." "individual" ["a"] (some ["del"]))
      5 "d/").1 ["del"] rfl).2 (by decide)
  · exact (per_file_kind_resolution (ChangeGroup.mk "." "individual" ["a"] none)
      0 "a").2 rfl

/-- C6: a staging failure on one unit (or one file of an individual/mixed
unit) never aborts the remaining work: given three uniform-directory units
where the second unit's staging fails, units 1 and 3 are still staged and
committed, and the pass still reaches the optional final push; likewise a
staging failure on the middle file of a three-file individual/mixed unit
still stages and commits the first and third files. -/
theorem orchestrator_failure_isolation
    (ops : GitAction → Bool) (g1 g2 g3 : ChangeGroup) (pushFlag : Bool)
    (hu1 : g1.change_type ≠ "individual" ∧ g1.change_type ≠ "mixed")
    (hu2 : g2.change_type ≠ "individual" ∧ g2.change_type ≠ "mixed")
    (hu3 : g3.change_type ≠ "individual" ∧ g3.change_type ≠ "mixed")
    (h1 : ops (.stageDirectory g1.path) = true)
    (h2 : ops (.stageDirectory g2.path) = false)
    (h3 : ops (.stageDirectory g3.path) = true) :
    processGroups ops false pushFlag [g1, g2, g3] =
      [GitAction.stageDirectory g1.path,
       GitAction.commitDirectory g1.path g1.change_type,
       GitAction.stageDirectory g2.path,
       GitAction.stageDirectory g3.path,
       GitAction.commitDirectory g3.path g3.change_type] ++
      (if pushFlag then [GitAction.push] else []) ∧
    ∀ (g : ChangeGroup) (f1 f2 f3 : String),
      (g.change_type = "individual" ∨ g.change_type = "mixed") →
      g.files = [f1, f2, f3] →
      ops (.stageFile f1) = true → ops (.stageFile f2) = false →
      ops (.stageFile f3) = true →
      processGroups ops false false [g] =
        [GitAction.stageFile f1,
         GitAction.commitFile f1 (resolveFileKind g 0 f1),
         GitAction.stageFile f2,
         GitAction.stageFile f3,
         GitAction.commitFile f3 (resolveFileKind g 2 f3)] := by
  constructor
  · simp [processGroups, processUnit, hu1, hu2, hu3, h1, h2, h3]
  · intro g f1 f2 f3 hind hfiles hf1 hf2 hf3
    have hnot : ¬ (g.change_type ≠ "individual" ∧ g.change_type ≠ "mixed") := by
      rcases hind with h | h <;> simp [h]
    simp [processGroups, processUnit, processFile, hnot, hfiles, hf1, hf2, hf3,
      List.enum]

/-- Witness for C6 with a concrete oracle failing exactly the second unit's
staging and the second file's staging. -/
theorem orchestrator_failure_isolation_witness :
    (processGroups
        (fun a => !(a == GitAction.stageDirectory "b" || a == GitAction.stageFile "y"))
        false false
        [ChangeGroup.mk "a" "add" ["a/f"] none,
         ChangeGroup.mk "b" "add" ["b/f"] none,
         ChangeGroup.mk "c" "mod" ["c/f"] none] =
      [GitAction.stageDirectory "a",
       GitAction.commitDirectory "a" "add",
       GitAction.stageDirectory "b",
       GitAction.stageDirectory "c",
       GitAction.commitDirectory "c" "mod"] ++
      (if false then [GitAction.push] else [])) ∧
    processGroups
        (fun a => !(a == GitAction.stageDirectory "b" || a == GitAction.stageFile "y"))
        false false
        [ChangeGroup.mk "." "individual" ["x", "y", "z"] (some ["add", "mod", "del"])] =
      [GitAction.stageFile "x",
       GitAction.commitFile "x"
         (resolveFileKind
           (ChangeGroup.mk "." "individual" ["x", "y", "z"] (some ["add", "mod", "del"])) 0 "x"),
       GitAction.stageFile "y",
       GitAction.stageFile "z",
       GitAction.commitFile "z"
         (resolveFileKind
           (ChangeGroup.mk "." "individual" ["x", "y", "z"] (some ["add", "mod", "del"])) 2 "z")] := by
  have h := orchestrator_failure_isolation
    (fun a => !(a == GitAction.stageDirectory "b" || a == GitAction.stageFile "y"))
    (ChangeGroup.mk "a" "add" ["a/f"] none)
    (ChangeGroup.mk "b" "add" ["b/f"] none)
    (ChangeGroup.mk "c" "mod" ["c/f"] none)
    false
    (by refine ⟨by decide, by decide⟩)
    (by refine ⟨by decide, by decide⟩)
    (by refine ⟨by decide, by decide⟩)
    (by decide) (by decide) (by decide)
  exact ⟨h.1, h.2
    (ChangeGroup.mk "." "individual" ["x", "y", "z"] (some ["add", "mod", "del"]))
    "x" "y" "z" (by decide) (by decide) (by decide) (by decide) (by decide)⟩

/-! ## Grouping lemmas -/

/-- Total number of changed files stored across the directory buckets. -/
def bucketFilesLen (bs : List Bucket) : Nat :=
  (bs.map (fun b => b.2.2.length)).sum

/-- Inserting a record's file into the bucket map grows the stored file
count by exactly one. -/
theorem insertBucket_bucketFilesLen (bs : List Bucket) (d k f : String) :
    bucketFilesLen (insertBucket bs d k f) = bucketFilesLen bs + 1 := by
  induction bs with
  | nil => simp [insertBucket, bucketFilesLen]
  | cons b rest ih =>
    obtain ⟨d', k', fs'⟩ := b
    by_cases h : d' = d
    · simp only [insertBucket, if_pos h, bucketFilesLen, List.map_cons, List.sum_cons,
        List.length_append, List.length_singleton]
      omega
    · simp only [insertBucket, if_neg h, bucketFilesLen, List.map_cons, List.sum_cons] at *
      omega

/-- Running file count of a first-pass accumulator: files in the untracked
groups plus files in the buckets. -/
def passCount (acc : List ChangeGroup × List Bucket) : Nat :=
  totalFileCount acc.1 + bucketFilesLen acc.2

/-- Each record processed by the first pass adds exactly one file to the
accumulator. -/
theorem collectStep_passCount (acc : List ChangeGroup × List Bucket) (c : GitChange) :
    passCount (collectStep acc c) = passCount acc + 1 := by
  unfold collectStep
  by_cases h : isUntrackedDir c
  · simp only [h, if_true, passCount, totalFileCount, List.map_append, List.sum_append,
      List.map_cons, List.map_nil, List.sum_cons, List.sum_nil, untrackedGroup,
      List.length_singleton]
    omega
  · simp only [h, if_false, Bool.false_eq_true, passCount, insertBucket_bucketFilesLen]
    omega

/-- After the whole first pass the accumulated file count equals the number
of processed records. -/
theorem foldl_passCount (l : List GitChange) :
    ∀ acc, passCount (l.foldl collectStep acc) = passCount acc + l.length := by
  induction l with
  | nil => intro acc; simp
  | cons c l ih =>
    intro acc
    simp only [List.foldl_cons, List.length_cons, ih, collectStep_passCount]
    omega

/-- The records of `changes` that the first pass assigns to the bucket of
directory `d`: not short-circuited as an untracked directory, and with
parent directory `d`. -/
def bucketRecords (changes : List GitChange) (d : String) : List GitChange :=
  changes.filter (fun c => !isUntrackedDir c && parentDir c.filename == d)

/-- Appending one record extends at most the record's own bucket. -/
theorem bucketRecords_append_one (pre : List GitChange) (c : GitChange) (d : String) :
    bucketRecords (pre ++ [c]) d =
      bucketRecords pre d ++
        (if (!isUntrackedDir c && parentDir c.filename == d) = true then [c] else []) := by
  unfold bucketRecords
  rw [List.filter_append]
  congr 1
  by_cases h : (!isUntrackedDir c && parentDir c.filename == d) = true
  · simp [List.filter_cons, h]
  · simp [List.filter_cons, h]

/-- Keys of the bucket map after an insertion: unchanged when the directory
was already present, appended at the end otherwise. -/
theorem insertBucket_keys (bs : List Bucket) (d k f : String) :
    (insertBucket bs d k f).map (fun b => b.1) =
      if d ∈ bs.map (fun b => b.1) then bs.map (fun b => b.1)
      else bs.map (fun b => b.1) ++ [d] := by
  induction bs with
  | nil => simp [insertBucket]
  | cons b rest ih =>
    obtain ⟨d', k', fs'⟩ := b
    by_cases h : d' = d
    · subst h
      simp [insertBucket]
    · have hstep : insertBucket ((d', k', fs') :: rest) d k f =
          (d', k', fs') :: insertBucket rest d k f := by
        simp [insertBucket, h]
      rw [hstep]
      have hd' : ¬ d = d' := fun he => h he.symm
      by_cases hm : d ∈ rest.map (fun b => b.1)
      · simp [List.map_cons, ih, hm, List.mem_cons, hd']
      · simp [List.map_cons, ih, hm, List.mem_cons, hd']

/-- Shape of the entries of the bucket map after an insertion (for a map
with distinct keys): entries with another key are untouched; the inserted
key's entry either extends an existing entry's file list by the new file or
is a fresh singleton entry. -/
theorem insertBucket_mem (bs : List Bucket) (d₀ k₀ f₀ : String)
    (hnd : (bs.map (fun b => b.1)).Nodup) :
    ∀ b ∈ insertBucket bs d₀ k₀ f₀,
      (b.1 ≠ d₀ ∧ b ∈ bs) ∨
      (b.1 = d₀ ∧
        ((∃ k fs, (d₀, k, fs) ∈ bs ∧ b.2.2 = fs ++ [f₀]) ∨
         (d₀ ∉ bs.map (fun x => x.1) ∧ b.2.2 = [f₀]))) := by
  induction bs with
  | nil =>
    intro b hb
    simp only [insertBucket, List.mem_singleton] at hb
    subst hb
    exact Or.inr ⟨rfl, Or.inr ⟨by simp, rfl⟩⟩
  | cons hd rest ih =>
    obtain ⟨d, k, fs⟩ := hd
    have hnd' : (d :: rest.map (fun b => b.1)).Nodup := hnd
    have hd_notin : d ∉ rest.map (fun b => b.1) := (List.nodup_cons.mp hnd').1
    have hrest_nd : (rest.map (fun b => b.1)).Nodup := (List.nodup_cons.mp hnd').2
    intro b hb
    by_cases h : d = d₀
    · subst h
      simp only [insertBucket, if_pos rfl] at hb
      rcases List.mem_cons.mp hb with hb1 | hb2
      · subst hb1
        exact Or.inr ⟨rfl, Or.inl ⟨k, fs, List.mem_cons_self _ _, rfl⟩⟩
      · left
        have hmem : b.1 ∈ rest.map (fun x => x.1) := List.mem_map_of_mem _ hb2
        exact ⟨fun he => hd_notin (he ▸ hmem), List.mem_cons_of_mem _ hb2⟩
    · simp only [insertBucket, if_neg h] at hb
      rcases List.mem_cons.mp hb with hb1 | hb2
      · subst hb1
        exact Or.inl ⟨h, List.mem_cons_self _ _⟩
      · rcases ih hrest_nd b hb2 with ⟨hne, hmem⟩ | ⟨heq, hcase⟩
        · exact Or.inl ⟨hne, List.mem_cons_of_mem _ hmem⟩
        · refine Or.inr ⟨heq, ?_⟩
          rcases hcase with ⟨k', fs', hmem', heq'⟩ | ⟨hnotin, heq'⟩
          · exact Or.inl ⟨k', fs', List.mem_cons_of_mem _ hmem', heq'⟩
          · refine Or.inr ⟨?_, heq'⟩
            simp only [List.map_cons, List.mem_cons, not_or]
            exact ⟨fun he => h he.symm, hnotin⟩

/-- Invariant of the first pass: the bucket map has distinct directory keys,
each bucket's file list is exactly the filenames of the processed records
assigned to that directory (in input order), and a directory is a key
exactly when some processed record was assigned to it. -/
def BucketInv (processed : List GitChange) (bs : List Bucket) : Prop :=
  (bs.map (fun b => b.1)).Nodup ∧
  (∀ b ∈ bs, b.2.2 = (bucketRecords processed b.1).map (fun c => c.filename)) ∧
  (∀ d : String, d ∈ bs.map (fun b => b.1) ↔ bucketRecords processed d ≠ [])

/-- One step of the first pass preserves the bucket invariant. -/
theorem collectStep_inv (pre : List GitChange) (c : GitChange)
    (acc : List ChangeGroup × List Bucket) (h : BucketInv pre acc.2) :
    BucketInv (pre ++ [c]) (collectStep acc c).2 := by
  obtain ⟨hnd, hfiles, hkeys⟩ := h
  by_cases hc : isUntrackedDir c
  · have hstep : (collectStep acc c).2 = acc.2 := by
      simp [collectStep, hc]
    have hrec : ∀ d, bucketRecords (pre ++ [c]) d = bucketRecords pre d := by
      intro d
      rw [bucketRecords_append_one]
      simp [hc]
    rw [hstep]
    refine ⟨hnd, ?_, ?_⟩
    · intro b hb
      rw [hrec]
      exact hfiles b hb
    · intro d
      rw [hrec]
      exact hkeys d
  · have hcf : isUntrackedDir c = false := by
      simpa using hc
    have hstep : (collectStep acc c).2 =
        insertBucket acc.2 (parentDir c.filename) c.change_type.toString c.filename := by
      simp [collectStep, hc]
    have hrec : ∀ d, bucketRecords (pre ++ [c]) d =
        bucketRecords pre d ++ (if (parentDir c.filename == d) = true then [c] else []) := by
      intro d
      rw [bucketRecords_append_one]
      congr 1
      simp [hcf]
    rw [hstep]
    refine ⟨?_, ?_, ?_⟩
    · rw [insertBucket_keys]
      split
      · exact hnd
      · next hne =>
        simp [List.nodup_append, hnd, hne]
    · intro b hb
      rcases insertBucket_mem acc.2 (parentDir c.filename) c.change_type.toString
          c.filename hnd b hb with ⟨hne, hmem⟩ | ⟨heq, hcase⟩
      · have hne' : ¬ (parentDir c.filename == b.1) = true := by
          simp only [beq_iff_eq]
          exact fun he => hne he.symm
        rw [hrec b.1, if_neg hne', List.append_nil]
        exact hfiles b hmem
      · have hbt : (parentDir c.filename == parentDir c.filename) = true := by simp
        rcases hcase with ⟨k, fs, hmem, hbfs⟩ | ⟨hnotin, hbfs⟩
        · have hfs : fs = (bucketRecords pre (parentDir c.filename)).map
              (fun x => x.filename) := hfiles (parentDir c.filename, k, fs) hmem
          rw [heq, hrec (parentDir c.filename), if_pos hbt]
          simp only [List.map_append, List.map_cons, List.map_nil]
          rw [hbfs, hfs]
        · have hempty : bucketRecords pre (parentDir c.filename) = [] := by
            by_contra hcon
            exact hnotin ((hkeys (parentDir c.filename)).mpr hcon)
          rw [heq, hrec (parentDir c.filename), if_pos hbt, hempty, hbfs]
          simp
    · intro d
      rw [insertBucket_keys, hrec d]
      by_cases hdd : parentDir c.filename = d
      · have hbt : (parentDir c.filename == d) = true := by simp [hdd]
        rw [if_pos hbt]
        have hra : bucketRecords pre d ++ [c] ≠ [] := by simp
        by_cases hin : parentDir c.filename ∈ acc.2.map (fun b => b.1)
        · rw [if_pos hin]
          subst hdd
          simp [hin, hra]
        · rw [if_neg hin]
          subst hdd
          simp [hra]
      · have hbf : ¬ (parentDir c.filename == d) = true := by simp [hdd]
        rw [if_neg hbf, List.append_nil]
        by_cases hin : parentDir c.filename ∈ acc.2.map (fun b => b.1)
        · rw [if_pos hin]
          exact hkeys d
        · rw [if_neg hin]
          rw [List.mem_append, List.mem_singleton]
          constructor
          · rintro (hmem | heq)
            · exact (hkeys d).mp hmem
            · exact absurd heq.symm hdd
          · intro hne
            exact Or.inl ((hkeys d).mpr hne)

/-- The bucket invariant holds for the buckets of the whole first pass. -/
theorem collectGroups_inv (changes : List GitChange) :
    BucketInv changes (collectGroups changes).2 := by
  have haux : ∀ (l pre : List GitChange) (acc : List ChangeGroup × List Bucket),
      BucketInv pre acc.2 → BucketInv (pre ++ l) ((l.foldl collectStep acc)).2 := by
    intro l
    induction l with
    | nil =>
      intro pre acc h
      simpa using h
    | cons c l ih =>
      intro pre acc h
      have h' := collectStep_inv pre c acc h
      have h'' := ih (pre ++ [c]) (collectStep acc c) h'
      simpa [List.append_assoc] using h''
  have hinit : BucketInv [] ([] : List Bucket) := by
    refine ⟨List.nodup_nil, ?_, ?_⟩
    · intro b hb
      exact absurd hb (List.not_mem_nil b)
    · intro d
      simp [bucketRecords]
  simpa using haux changes [] ([], []) hinit

/-- Unfolding equation for `emitBucket` on an explicit bucket triple. -/
theorem emitBucket_def (lister : String → Except String (List String))
    (changes : List GitChange) (path change_type : String)
    (changedFiles : List String) :
    emitBucket lister changes (path, change_type, changedFiles) =
      (if change_type ≠ "mixed" then
        match lister path with
        | .ok allFiles =>
          if changedFiles.length = allFiles.length then
            { path := path
              change_type := change_type
              files := changedFiles
              file_change_types := none }
          else
            individualGroup changes changedFiles
        | .error _ => individualGroup changes changedFiles
      else
        individualGroup changes changedFiles) := rfl

/-- Unfolding equation for the files of an individual-fallback group. -/
theorem individualGroup_files (changes : List GitChange) (changedFiles : List String) :
    (individualGroup changes changedFiles).files =
      (changes.filter (fun c => changedFiles.contains c.filename)).map
        (fun c => c.filename) := rfl

/-- Precondition for the file-count invariant: the filename of an
untracked-directory record never also appears as the filename of a record
that is not an untracked-directory record (the re-walk in the individual
fallback would otherwise pick such a record up twice). -/
def noSharedUntrackedDirName (changes : List GitChange) : Prop :=
  ∀ c ∈ changes, isUntrackedDir c = true →
    ∀ c' ∈ changes, c'.filename = c.filename → isUntrackedDir c' = true

/-- Under the no-shared-name precondition, re-walking the record list for
the filenames of a bucket selects exactly that bucket's records. -/
theorem filter_contains_bucket (changes : List GitChange) (d : String)
    (hP : noSharedUntrackedDirName changes) :
    changes.filter
        (fun c => ((bucketRecords changes d).map (fun x => x.filename)).contains c.filename)
      = bucketRecords changes d := by
  have hcongr : ∀ c ∈ changes,
      (((bucketRecords changes d).map (fun x => x.filename)).contains c.filename)
        = (!isUntrackedDir c && parentDir c.filename == d) := by
    intro c hc
    by_cases hmem : c.filename ∈ (bucketRecords changes d).map (fun x => x.filename)
    · obtain ⟨c', hc', hfn⟩ := List.mem_map.mp hmem
      have hc'mem := (List.mem_filter.mp hc').1
      have hc'p := (List.mem_filter.mp hc').2
      simp only [Bool.and_eq_true, Bool.not_eq_true', beq_iff_eq] at hc'p
      obtain ⟨hsc', hpd⟩ := hc'p
      have hscc : isUntrackedDir c = false := by
        by_contra hcon
        have hct : isUntrackedDir c = true := by
          simpa using hcon
        have hup := hP c hc hct c' hc'mem hfn
        rw [hup] at hsc'
        exact absurd hsc' (by simp)
      have hpc : parentDir c.filename = d := by
        rw [← hfn]
        exact hpd
      have hlhs : (((bucketRecords changes d).map (fun x => x.filename)).contains
          c.filename) = true := by
        simp [List.contains, List.elem_eq_mem, hmem]
      rw [hlhs, hscc, hpc]
      simp
    · have hlhs : (((bucketRecords changes d).map (fun x => x.filename)).contains
          c.filename) = false := by
        simp [List.contains, List.elem_eq_mem, hmem]
      by_cases hval : (!isUntrackedDir c && parentDir c.filename == d) = true
      · exact absurd (List.mem_map_of_mem _ (List.mem_filter.mpr ⟨hc, hval⟩)) hmem
      · rw [Bool.not_eq_true] at hval
        rw [hlhs, hval]
  rw [List.filter_congr hcongr]
  rfl

/-- Under the no-shared-name precondition, a bucket's individual-files
fallback group holds exactly as many files as the bucket. -/
theorem individualGroup_length (changes : List GitChange) (d : String)
    (fs : List String) (hP : noSharedUntrackedDirName changes)
    (hfs : fs = (bucketRecords changes d).map (fun x => x.filename)) :
    (individualGroup changes fs).files.length = fs.length := by
  subst hfs
  rw [individualGroup_files, filter_contains_bucket changes d hP]

/-- Every bucket's emitted group has exactly as many files as the bucket
(under the no-shared-name precondition). -/
theorem emitBucket_length (lister : String → Except String (List String))
    (changes : List GitChange) (hP : noSharedUntrackedDirName changes) :
    ∀ b ∈ (collectGroups changes).2,
      ((emitBucket lister changes b).files).length = b.2.2.length := by
  intro b hb
  obtain ⟨d, k, fs⟩ := b
  have hfs : fs = (bucketRecords changes d).map (fun x => x.filename) :=
    (collectGroups_inv changes).2.1 (d, k, fs) hb
  have hlen := individualGroup_length changes d fs hP hfs
  rw [emitBucket_def]
  by_cases hk : k ≠ "mixed"
  · rw [if_pos hk]
    cases hl : lister d with
    | ok allFiles =>
      simp only
      by_cases heq : fs.length = allFiles.length
      · rw [if_pos heq]
      · rw [if_neg heq]
        exact hlen
    | error e =>
      simp only
      exact hlen
  · rw [if_neg hk]
    exact hlen

/-- Counterexample for C1: when an untracked-directory record shares its
path with a bucketed record, the re-walk of the individual fallback counts
the shared path twice — two input records produce three output files. -/
theorem grouping_file_count_cx :
    group_changes_by_directory (fun _ => .error "boom")
      [⟨GitStatus.untracked, ChangeType.add, "d/"⟩,
       ⟨GitStatus.modifiedStaged, ChangeType.modify, "d/"⟩] =
      .ok [⟨"d/", "add", ["d/"], some ["add"]⟩,
           ⟨".", "individual", ["d/", "d/"], some ["add", "mod"]⟩] ∧
    totalFileCount
        [⟨"d/", "add", ["d/"], some ["add"]⟩,
         ⟨".", "individual", ["d/", "d/"], some ["add", "mod"]⟩] = 3 ∧
    ([⟨GitStatus.untracked, ChangeType.add, "d/"⟩,
      (⟨GitStatus.modifiedStaged, ChangeType.modify, "d/"⟩ : GitChange)].length = 2) := by
  refine ⟨by rfl, by decide, by decide⟩

/-- C1 (amended): provided no untracked-directory record shares its path
with any other record, the total file count across all groups returned by
`group_changes_by_directory` equals the number of input records — no file
is dropped or duplicated, an untracked-directory record counting as exactly
the one `"dir/"` entry of its own group. -/
theorem grouping_preserves_file_count
    (lister : String → Except String (List String))
    (changes : List GitChange) (gs : List ChangeGroup)
    (hP : noSharedUntrackedDirName changes)
    (hg : group_changes_by_directory lister changes = .ok gs) :
    totalFileCount gs = changes.length := by
  have h : Except.ok (ε := String) ((collectGroups changes).1 ++
      ((collectGroups changes).2).map (emitBucket lister changes)) = Except.ok gs := hg
  injection h with h'
  subst h'
  have h1 : totalFileCount ((collectGroups changes).1 ++
      ((collectGroups changes).2).map (emitBucket lister changes)) =
      totalFileCount (collectGroups changes).1 +
        ((((collectGroups changes).2).map (emitBucket lister changes)).map
          (fun g => g.files.length)).sum := by
    simp [totalFileCount]
  have h2 : (((collectGroups changes).2).map (emitBucket lister changes)).map
      (fun g => g.files.length) =
      ((collectGroups changes).2).map (fun b => b.2.2.length) := by
    rw [List.map_map]
    exact List.map_congr_left (emitBucket_length lister changes hP)
  have h3 : passCount (collectGroups changes) = changes.length := by
    have h4 := foldl_passCount changes ([], [])
    simpa [collectGroups, passCount, totalFileCount, bucketFilesLen] using h4
  rw [h1, h2]
  simpa [passCount, bucketFilesLen] using h3

/-- Witness for C1: two same-directory records with differing kinds and a
failing lister still yield exactly two files in total. -/
theorem grouping_preserves_file_count_witness :
    totalFileCount [⟨".", "individual", ["src/a.rs", "src/b.rs"],
        some ["mod", "del"]⟩] = 2 :=
  grouping_preserves_file_count (fun _ => .error "boom")
    [⟨GitStatus.modifiedStaged, ChangeType.modify, "src/a.rs"⟩,
     ⟨GitStatus.deletedStaged, ChangeType.delete, "src/b.rs"⟩]
    [⟨".", "individual", ["src/a.rs", "src/b.rs"], some ["mod", "del"]⟩]
    (by unfold noSharedUntrackedDirName; decide) (by rfl)

/-- C2: a bucket whose kind tag is uniform (not `"mixed"`), whose directory
listing succeeds, and whose changed-file count equals the tracked-file
count is emitted as exactly one full-directory group: kind = the uniform
kind, files = the changed set, per-file kinds absent.  The result of
`group_changes_by_directory` is exactly one group per bucket (after the
untracked-directory groups), and bucket keys are distinct, so the bucket
yields exactly one such group. -/
theorem uniform_bucket_unit
    (lister : String → Except String (List String))
    (changes : List GitChange) (d k : String) (fs allFiles : List String)
    (hb : (d, k, fs) ∈ (collectGroups changes).2)
    (hk : k ≠ "mixed")
    (hl : lister d = .ok allFiles)
    (hlen : fs.length = allFiles.length) :
    emitBucket lister changes (d, k, fs) =
      ⟨d, k, fs, none⟩ ∧
    group_changes_by_directory lister changes =
      .ok ((collectGroups changes).1 ++
        ((collectGroups changes).2).map (emitBucket lister changes)) ∧
    (((collectGroups changes).2).map (fun b => b.1)).Nodup := by
  refine ⟨?_, rfl, (collectGroups_inv changes).1⟩
  rw [emitBucket_def, if_pos hk, hl]
  simp only
  rw [if_pos hlen]

/-- Witness for C2: a single-file directory (one changed file, one tracked
file) becomes a full-directory unit. -/
theorem uniform_bucket_unit_witness :
    emitBucket (fun p => if p = "src" then .ok ["src/a.rs"] else .error "x")
        [⟨GitStatus.modifiedStaged, ChangeType.modify, "src/a.rs"⟩]
        ("src", "mod", ["src/a.rs"]) =
      ⟨"src", "mod", ["src/a.rs"], none⟩ :=
  (uniform_bucket_unit
    (fun p => if p = "src" then .ok ["src/a.rs"] else .error "x")
    [⟨GitStatus.modifiedStaged, ChangeType.modify, "src/a.rs"⟩]
    "src" "mod" ["src/a.rs"] ["src/a.rs"]
    (by decide) (by decide) (by rfl) (by decide)).1

/-- C3: a bucket that is `"mixed"`, whose listing query fails, or whose
changed-file count differs from the tracked-file count is emitted as
exactly one group with kind `"individual"` (never `"mixed"`), path `"."`,
files in original input-record order with index-aligned per-file kinds; and
the grouping pass still returns the full `.ok` result (a listing failure
never aborts it). -/
theorem fallback_bucket_unit
    (lister : String → Except String (List String))
    (changes : List GitChange) (d k : String) (fs : List String)
    (hb : (d, k, fs) ∈ (collectGroups changes).2)
    (h : k = "mixed" ∨ (∃ e, lister d = .error e) ∨
      ∃ allFiles, lister d = .ok allFiles ∧ fs.length ≠ allFiles.length) :
    emitBucket lister changes (d, k, fs) =
      { path := "."
        change_type := "individual"
        files := (changes.filter (fun c => fs.contains c.filename)).map
          (fun c => c.filename)
        file_change_types := some ((changes.filter (fun c => fs.contains c.filename)).map
          (fun c => c.change_type.toString)) } ∧
    ((emitBucket lister changes (d, k, fs)).files).Sublist
      (changes.map (fun c => c.filename)) ∧
    group_changes_by_directory lister changes =
      .ok ((collectGroups changes).1 ++
        ((collectGroups changes).2).map (emitBucket lister changes)) := by
  have hind : emitBucket lister changes (d, k, fs) = individualGroup changes fs := by
    rw [emitBucket_def]
    by_cases hk : k ≠ "mixed"
    · rw [if_pos hk]
      rcases h with hmix | ⟨e, he⟩ | ⟨allFiles, hok, hne⟩
      · exact absurd hmix hk
      · rw [he]
      · rw [hok]
        simp only
        rw [if_neg hne]
    · rw [if_neg hk]
  refine ⟨?_, ?_, rfl⟩
  · rw [hind]
    rfl
  · rw [hind, individualGroup_files]
    exact List.Sublist.map _ (List.filter_sublist changes)

/-- Witness for C3: a mixed-kind bucket of two files becomes the individual
group with both files in input order and aligned kinds. -/
theorem fallback_bucket_unit_witness :
    emitBucket (fun _ => .ok ["src/a.rs", "src/b.rs"])
        [⟨GitStatus.modifiedStaged, ChangeType.modify, "src/a.rs"⟩,
         ⟨GitStatus.deletedStaged, ChangeType.delete, "src/b.rs"⟩]
        ("src", "mixed", ["src/a.rs", "src/b.rs"]) =
      { path := "."
        change_type := "individual"
        files := ([⟨GitStatus.modifiedStaged, ChangeType.modify, "src/a.rs"⟩,
           (⟨GitStatus.deletedStaged, ChangeType.delete, "src/b.rs"⟩ : GitChange)].filter
            (fun c => (["src/a.rs", "src/b.rs"] : List String).contains c.filename)).map
          (fun c => c.filename)
        file_change_types := some (([⟨GitStatus.modifiedStaged, ChangeType.modify, "src/a.rs"⟩,
           (⟨GitStatus.deletedStaged, ChangeType.delete, "src/b.rs"⟩ : GitChange)].filter
            (fun c => (["src/a.rs", "src/b.rs"] : List String).contains c.filename)).map
          (fun c => c.change_type.toString)) } :=
  (fallback_bucket_unit (fun _ => .ok ["src/a.rs", "src/b.rs"])
    [⟨GitStatus.modifiedStaged, ChangeType.modify, "src/a.rs"⟩,
     ⟨GitStatus.deletedStaged, ChangeType.delete, "src/b.rs"⟩]
    "src" "mixed" ["src/a.rs", "src/b.rs"]
    (by decide) (Or.inl rfl)).1

/-- Counterexample for C5: the untracked-directory short-circuit emits a
group whose kind `"add"` is neither `"mixed"` nor `"individual"` and whose
per-file kinds are nevertheless present (`["add"]`). -/
theorem untracked_dir_per_file_kinds_cx :
    group_changes_by_directory (fun _ => .ok [])
        [⟨GitStatus.untracked, ChangeType.add, "newdir/"⟩] =
      .ok [⟨"newdir/", "add", ["newdir/"], some ["add"]⟩] ∧
    ("add" ≠ "mixed" ∧ "add" ≠ "individual") ∧
    (ChangeGroup.mk "newdir/" "add" ["newdir/"] (some ["add"])).file_change_types ≠
      none := by
  refine ⟨by rfl, by decide, by decide⟩

/-- C5 (amended): every group emitted for a directory bucket whose kind is
neither `"mixed"` nor `"individual"` has absent per-file kinds; the
untracked-directory short-circuit groups, however, carry kind `"add"`
together with present per-file kinds `["add"]`. -/
theorem bucket_unit_per_file_kinds
    (lister : String → Except String (List String))
    (changes : List GitChange) (b : Bucket)
    (h1 : (emitBucket lister changes b).change_type ≠ "mixed")
    (h2 : (emitBucket lister changes b).change_type ≠ "individual") :
    (emitBucket lister changes b).file_change_types = none ∧
    ∀ c : GitChange, (untrackedGroup c).file_change_types = some ["add"] := by
  refine ⟨?_, fun c => rfl⟩
  obtain ⟨d, k, fs⟩ := b
  by_cases hk : k ≠ "mixed"
  · cases hl : lister d with
    | ok allFiles =>
      by_cases heq : fs.length = allFiles.length
      · rw [emitBucket_def, if_pos hk, hl]
        simp only
        rw [if_pos heq]
      · exfalso
        apply h2
        rw [emitBucket_def, if_pos hk, hl]
        simp only
        rw [if_neg heq]
        rfl
    | error e =>
      exfalso
      apply h2
      rw [emitBucket_def, if_pos hk, hl]
      rfl
  · exfalso
    apply h2
    rw [emitBucket_def, if_neg hk]
    rfl

/-- Witness for C5 at a concrete uniform bucket. -/
theorem bucket_unit_per_file_kinds_witness :
    (emitBucket (fun _ => .ok ["x"]) [] ("src", "mod", ["x"])).file_change_types = none ∧
    ∀ c : GitChange, (untrackedGroup c).file_change_types = some ["add"] :=
  bucket_unit_per_file_kinds (fun _ => .ok ["x"]) [] ("src", "mod", ["x"])
    (by decide) (by decide)
